import Mathlib

/-!
Shallow embedding of the picsapp core (Go): the sqlite-backed record store
(`database.go`), the conversion task queue, the conversion worker and the
websocket broadcast hub (`main.go`, here `src/unnamed/part_002`).

Modelling conventions:
* the `pictures` table is a list of `Picture` rows in insertion order;
  `ORDER BY` is modelled by `List.insertionSort` with the comparison used by
  the SQL query;
* a Go `time.Time` is modelled by its RFC3339 rendering (a `String`): the
  code always stores `t.Format(time.RFC3339)` and compares/parses those
  strings, and for a fixed offset the RFC3339 rendering is order-isomorphic
  to the time it denotes.  `time.Parse(time.RFC3339, s)` (external stdlib)
  is modelled by the shape check `isRFC3339`;
* the `conversion_tasks` table is a list of `ConversionTask` rows plus the
  AUTOINCREMENT counter; `CURRENT_TIMESTAMP` values are passed in as `Nat`
  arguments;
* fallible operations return `Except String _` mirroring the Go `error`
  results; paths where the model cannot fail (no I/O) return `.ok`.
-/

namespace Picsapp

/-- Picture mirrors the Go struct `Picture` (and a row of the `pictures`
table): `UploadedAt` is kept as its RFC3339 rendering (see module comment). -/
structure Picture where
  id : String
  filename : String
  url : String
  likes : Int
  uploadedAt : String
deriving DecidableEq, Repr

/-- decimalDigit models `c` being one of the ASCII digits. -/
def decimalDigit (c : Char) : Bool :=
  '0' ≤ c && c ≤ '9'

/-- zoneOk models the timezone part of Go's RFC3339 layout: `Z` or
`±hh:mm`. -/
def zoneOk : List Char → Bool
  | ['Z'] => true
  | [sg, a, b, ':', c, d] =>
    (sg = '+' || sg = '-') && decimalDigit a && decimalDigit b
      && decimalDigit c && decimalDigit d
  | _ => false

/-- isRFC3339List checks the character shape of Go's
`time.RFC3339` layout `2006-01-02T15:04:05Z07:00`. -/
def isRFC3339List : List Char → Bool
  | y1 :: y2 :: y3 :: y4 :: '-' :: m1 :: m2 :: '-' :: d1 :: d2 :: 'T' ::
      h1 :: h2 :: ':' :: n1 :: n2 :: ':' :: s1 :: s2 :: zone =>
    decimalDigit y1 && decimalDigit y2 && decimalDigit y3 && decimalDigit y4
      && decimalDigit m1 && decimalDigit m2 && decimalDigit d1 && decimalDigit d2
      && decimalDigit h1 && decimalDigit h2 && decimalDigit n1 && decimalDigit n2
      && decimalDigit s1 && decimalDigit s2 && zoneOk zone
  | _ => false

/-- isRFC3339 models the success of the external
`time.Parse(time.RFC3339, s)` call used throughout `database.go`. -/
def isRFC3339 (s : String) : Bool :=
  isRFC3339List s.toList

/-- tsLE compares two stored DATETIME strings the way sqlite's text
collation does: lexicographically by character. -/
def tsLE (a b : String) : Prop :=
  a.toList ≤ b.toList

instance : DecidableRel tsLE := fun a b =>
  inferInstanceAs (Decidable (a.toList ≤ b.toList))

lemma tsLE_total (a b : String) : tsLE a b ∨ tsLE b a :=
  le_total a.toList b.toList

lemma tsLE_trans {a b c : String} (h1 : tsLE a b) (h2 : tsLE b c) : tsLE a c :=
  le_trans h1 h2

/-- rankedLE is the row comparison of the SQL query
`ORDER BY likes DESC, uploaded_at DESC` in `GetAllPicturesSortedByLikes`. -/
def rankedLE (a b : Picture) : Prop :=
  b.likes < a.likes ∨ (a.likes = b.likes ∧ tsLE b.uploadedAt a.uploadedAt)

instance : DecidableRel rankedLE := fun a b =>
  inferInstanceAs (Decidable (b.likes < a.likes ∨ (a.likes = b.likes ∧ tsLE b.uploadedAt a.uploadedAt)))

instance : IsTotal Picture rankedLE where
  total a b := by
    unfold rankedLE
    rcases lt_trichotomy a.likes b.likes with h | h | h
    · exact Or.inr (Or.inl h)
    · rcases tsLE_total a.uploadedAt b.uploadedAt with hs | hs
      · exact Or.inr (Or.inr ⟨h.symm, hs⟩)
      · exact Or.inl (Or.inr ⟨h, hs⟩)
    · exact Or.inl (Or.inl h)

instance : IsTrans Picture rankedLE where
  trans a b c hab hbc := by
    unfold rankedLE at *
    rcases hab with h1 | ⟨h1, h1'⟩
    · rcases hbc with h2 | ⟨h2, h2'⟩
      · exact Or.inl (h2.trans h1)
      · exact Or.inl (h2 ▸ h1)
    · rcases hbc with h2 | ⟨h2, h2'⟩
      · exact Or.inl (h1 ▸ h2)
      · exact Or.inr ⟨h1.trans h2, tsLE_trans h2' h1'⟩

/-- recentLE is the row comparison of the SQL query
`ORDER BY uploaded_at DESC` in `GetLastPictures`. -/
def recentLE (a b : Picture) : Prop :=
  tsLE b.uploadedAt a.uploadedAt

instance : DecidableRel recentLE := fun a b =>
  inferInstanceAs (Decidable (tsLE b.uploadedAt a.uploadedAt))

instance : IsTotal Picture recentLE where
  total a b := tsLE_total b.uploadedAt a.uploadedAt

instance : IsTrans Picture recentLE where
  trans _ _ _ hab hbc := tsLE_trans hbc hab

/-- rowToPicture models the scan loop body shared by `GetLastPictures` and
`GetAllPicturesSortedByLikes`: a row whose `uploaded_at` does not parse is
skipped (`continue` after a log warning), otherwise it is returned. -/
def rowToPicture (r : Picture) : Option Picture :=
  if isRFC3339 r.uploadedAt then some r else none

/-- addPicture models `Database.AddPicture`: a plain INSERT, which fails on
the `id` primary key and otherwise appends the row. -/
def addPicture (pics : List Picture) (p : Picture) : Except String (List Picture) :=
  if pics.any (fun q => q.id = p.id) then
    .error "UNIQUE constraint failed: pictures.id"
  else
    .ok (pics ++ [p])

/-- getLastPictures models `Database.GetLastPictures`: sort by
`uploaded_at DESC`, LIMIT n, then the scan loop that skips unparsable rows;
the Go function reaches `return pictures, rows.Err()` with a nil error. -/
def getLastPictures (n : Nat) (pics : List Picture) : Except String (List Picture) :=
  .ok ((((pics.insertionSort recentLE)).take n).filterMap rowToPicture)

/-- getAllPicturesSortedByLikes models `Database.GetAllPicturesSortedByLikes`:
sort by `likes DESC, uploaded_at DESC`, then the scan loop that skips
unparsable rows. -/
def getAllPicturesSortedByLikes (pics : List Picture) : Except String (List Picture) :=
  .ok ((pics.insertionSort rankedLE).filterMap rowToPicture)

/-- rankedList is the payload the worker and the like handler broadcast:
the (always successful) result of `GetAllPicturesSortedByLikes`. -/
def rankedList (pics : List Picture) : List Picture :=
  (pics.insertionSort rankedLE).filterMap rowToPicture

/-- incrementLikes models `Database.IncrementLikes`: the atomic
`UPDATE pictures SET likes = likes + 1 WHERE id = ?`; zero affected rows is
reported as the error `picture not found`. -/
def incrementLikes (id : String) (pics : List Picture) : Except String (List Picture) :=
  if pics.any (fun p => p.id = id) then
    .ok (pics.map (fun p => if p.id = id then { p with likes := p.likes + 1 } else p))
  else
    .error "picture not found"

/-- incLikesStep is one like request as the store sees it: the new table on
success, the unchanged table when the UPDATE affected no row. -/
def incLikesStep (id : String) (pics : List Picture) : List Picture :=
  match incrementLikes id pics with
  | .ok l => l
  | .error _ => pics

/-- incLikesN is `n` like requests for the same id, in the serialization
order the store's atomic UPDATE statement enforces. -/
def incLikesN (id : String) : Nat → List Picture → List Picture
  | 0, pics => pics
  | n + 1, pics => incLikesN id n (incLikesStep id pics)

/-- updatePictureFile models `Database.UpdatePictureFile`:
`UPDATE pictures SET id = ?, url = ? WHERE id = ?`, which fails on a primary
key collision with a different row and otherwise rewrites exactly the
matching rows. -/
def updatePictureFile (pics : List Picture) (oldID newID newURL : String) :
    Except String (List Picture) :=
  if (pics.any (fun p => p.id = oldID)) ∧ (pics.any (fun p => p.id = newID ∧ ¬ oldID = newID)) then
    .error "UNIQUE constraint failed: pictures.id"
  else
    .ok (pics.map (fun p => if p.id = oldID then { p with id := newID, url := newURL } else p))

/-- StoreOp is one request-handler mutation of the `pictures` table. -/
inductive StoreOp where
  | add (p : Picture)
  | like (id : String)
deriving DecidableEq

/-- applyStoreOp runs one mutation; a failed INSERT or a not-found like
leaves the table unchanged, as in sqlite. -/
def applyStoreOp (pics : List Picture) : StoreOp → List Picture
  | .add p =>
    match addPicture pics p with
    | .ok l => l
    | .error _ => pics
  | .like id => incLikesStep id pics

/-- runStoreOps is the table reached from empty by a sequence of insertions
and likes. -/
def runStoreOps (ops : List StoreOp) : List Picture :=
  ops.foldl applyStoreOp []

/-! ### Conversion task queue (`conversion_tasks` table) -/

/-- ConversionTask mirrors the Go struct `ConversionTask`: a row of the
`conversion_tasks` table.  The two DATETIME columns are modelled as `Nat`
instants (sqlite `CURRENT_TIMESTAMP` text compares chronologically). -/
structure ConversionTask where
  id : Nat
  originalPath : String
  originalName : String
  pictureID : Option String
  status : String
  errorMsg : Option String
  createdAt : Nat
  updatedAt : Nat
deriving DecidableEq, Repr

/-- TaskDB is the `conversion_tasks` table plus its AUTOINCREMENT counter. -/
structure TaskDB where
  tasks : List ConversionTask
  nextId : Nat
deriving DecidableEq, Repr

/-- createConversionTask models `Database.CreateConversionTask`:
`INSERT OR IGNORE` keyed on the UNIQUE `original_path` column, with
`NULLIF(?, '')` applied to the picture id; the Go call returns a nil error
in both the inserted and the ignored case. -/
def createConversionTask (path name pid : String) (now : Nat) (db : TaskDB) : TaskDB :=
  if db.tasks.any (fun t => t.originalPath = path) then
    db
  else
    { tasks := db.tasks ++
        [{ id := db.nextId, originalPath := path, originalName := name,
           pictureID := if pid = "" then none else some pid,
           status := "pending", errorMsg := none,
           createdAt := now, updatedAt := now }],
      nextId := db.nextId + 1 }

/-- selectBetter keeps the earlier-created of the current row and the best
candidate found so far, preferring the current (earlier-in-table) row on
ties. -/
def selectBetter (u : ConversionTask) : Option ConversionTask → Option ConversionTask
  | none => some u
  | some b => if b.createdAt < u.createdAt then some b else some u

/-- selectNextPending models the SELECT of `ClaimNextTask`:
`WHERE status = 'pending' ORDER BY created_at LIMIT 1`; among rows with the
minimal `created_at` the scan keeps the first one in table order. -/
def selectNextPending : List ConversionTask → Option ConversionTask
  | [] => none
  | t :: rest =>
    if t.status = "pending" then selectBetter t (selectNextPending rest)
    else selectNextPending rest

/-- claimUpdate models the conditional UPDATE of `ClaimNextTask`:
`SET status = 'processing', updated_at = CURRENT_TIMESTAMP
WHERE id = ? AND status = 'pending'`, returning the affected row count. -/
def claimUpdate (id : Nat) (now : Nat) (tasks : List ConversionTask) :
    Nat × List ConversionTask :=
  ((tasks.filter (fun t => t.id = id ∧ t.status = "pending")).length,
   tasks.map (fun t =>
     if t.id = id ∧ t.status = "pending" then
       { t with status := "processing", updatedAt := now }
     else t))

/-- claimFinish is the tail of `ClaimNextTask` after the SELECT produced
`t`: run the conditional update; zero affected rows means another claimant
won, so roll back and return no task. -/
def claimFinish (t : ConversionTask) (now : Nat) (tasks : List ConversionTask) :
    Option ConversionTask × List ConversionTask :=
  let r := claimUpdate t.id now tasks
  if r.1 = 0 then (none, tasks) else (some t, r.2)

/-- claimNextTask models `Database.ClaimNextTask`: one transaction doing the
SELECT and the conditional UPDATE; no pending row yields `none` with a nil
error (`sql.ErrNoRows` is swallowed). -/
def claimNextTask (now : Nat) (tasks : List ConversionTask) :
    Option ConversionTask × List ConversionTask :=
  match selectNextPending tasks with
  | none => (none, tasks)
  | some t => claimFinish t now tasks

/-- markTaskCompleted models `Database.MarkTaskCompleted`: an unconditional
`UPDATE conversion_tasks SET status = 'completed', error = NULL WHERE id = ?`. -/
def markTaskCompleted (id : Nat) (now : Nat) (tasks : List ConversionTask) :
    List ConversionTask :=
  tasks.map (fun t =>
    if t.id = id then { t with status := "completed", errorMsg := none, updatedAt := now }
    else t)

/-- markTaskFailed models `Database.MarkTaskFailed`: an unconditional
`UPDATE conversion_tasks SET status = 'failed', error = ? WHERE id = ?`. -/
def markTaskFailed (id : Nat) (msg : String) (now : Nat) (tasks : List ConversionTask) :
    List ConversionTask :=
  tasks.map (fun t =>
    if t.id = id then { t with status := "failed", errorMsg := some msg, updatedAt := now }
    else t)

/-- statusOf reads the status of the (first) row with the given id, the way
the Go code addresses tasks by primary key. -/
def statusOf (tasks : List ConversionTask) (id : Nat) : Option String :=
  (tasks.find? (fun t => t.id = id)).map (fun t => t.status)

/-- errOf reads the error column of the (first) row with the given id. -/
def errOf (tasks : List ConversionTask) (id : Nat) : Option (Option String) :=
  (tasks.find? (fun t => t.id = id)).map (fun t => t.errorMsg)

/-- QueueOp is one operation of the task-queue interface. -/
inductive QueueOp where
  | create (path name pid : String)
  | claim
  | complete (id : Nat)
  | fail (id : Nat) (msg : String)
deriving DecidableEq

/-- applyQueueOp runs one queue operation against the store. -/
def applyQueueOp (now : Nat) (db : TaskDB) : QueueOp → TaskDB
  | .create path name pid => createConversionTask path name pid now db
  | .claim => { db with tasks := (claimNextTask now db.tasks).2 }
  | .complete id => { db with tasks := markTaskCompleted id now db.tasks }
  | .fail id msg => { db with tasks := markTaskFailed id msg now db.tasks }

/-- statusRank orders statuses as pending < processing < terminal; every
string other than the two live statuses counts as terminal. -/
def statusRank (s : String) : Nat :=
  if s = "pending" then 0 else if s = "processing" then 1 else 2

/-- claimStatusOrder states, following the spec's words, the transition
order `pending → processing → {completed | failed}` that task statuses are
claimed to follow (staying put is allowed). -/
def claimStatusOrder (a b : String) : Prop :=
  a = b
    ∨ (a = "pending" ∧ b = "processing")
    ∨ (a = "processing" ∧ (b = "completed" ∨ b = "failed"))

instance (a b : String) : Decidable (claimStatusOrder a b) :=
  inferInstanceAs (Decidable (a = b
    ∨ (a = "pending" ∧ b = "processing")
    ∨ (a = "processing" ∧ (b = "completed" ∨ b = "failed"))))

/-! ### Conversion worker (`convertToWebP`, `processConversionTask`,
`startConversionWorker`) -/

/-- Image is a decoded image as far as the conversion logic inspects it:
its bounds.  Pixel data plays no role in the claimed properties. -/
structure Image where
  width : Nat
  height : Nat
deriving DecidableEq, Repr

/-- maxImageDimension is the constant of the same name in the Go source. -/
def maxImageDimension : Nat := 1600

/-- imagingFit models the external `imaging.Fit(img, maxW, maxH, Lanczos)`:
within bounds the image is returned unchanged; otherwise the side hitting
its bound is fixed and the other is scaled proportionally with
round-half-up (`int(x + 0.5)` on the float quotient). -/
def imagingFit (img : Image) (maxW maxH : Nat) : Image :=
  if img.width ≤ maxW ∧ img.height ≤ maxH then img
  else if maxW * img.height < maxH * img.width then
    { width := maxW, height := (2 * maxW * img.height + img.width) / (2 * img.width) }
  else
    { width := (2 * maxH * img.width + img.height) / (2 * img.height), height := maxH }

/-- convertedImage is the resize decision inside `convertToWebP`: downscale
through `imaging.Fit` exactly when a dimension exceeds
`maxImageDimension`. -/
def convertedImage (img : Image) : Image :=
  if maxImageDimension < img.width ∨ maxImageDimension < img.height then
    imagingFit img maxImageDimension maxImageDimension
  else img

/-- webpQuality is the quality field of the `webp.Options` literal passed to
`webp.Encode` in `convertToWebP`. -/
def webpQuality : Nat := 82

/-- convertToWebP models the Go function of the same name; the external
decoder (`imaging.Decode`, auto-orientation included) and encoder
(`webp.Encode`) are taken as parameters, their library error texts replaced
by fixed stand-ins. -/
def convertToWebP (decode : List Nat → Option Image)
    (encode : Image → Nat → Option (List Nat)) (data : List Nat) :
    Except String (List Nat) :=
  match decode data with
  | none => .error "image: unknown format"
  | some img =>
    match encode (convertedImage img) webpQuality with
    | none => .error "webp: encode error"
    | some out => .ok out

/-- goExtAux scans for the last `.` after the last `/`, remembering the
suffix it starts. -/
def goExtAux : List Char → Option (List Char) → Option (List Char)
  | [], acc => acc
  | c :: rest, acc =>
    if c = '/' then goExtAux rest none
    else if c = '.' then goExtAux rest (some (c :: rest))
    else goExtAux rest acc

/-- goExt models the external `filepath.Ext`: the suffix beginning at the
final dot in the final path element, empty if there is none. -/
def goExt (s : String) : String :=
  match goExtAux s.toList none with
  | some l => String.mk l
  | none => ""

/-- trimExt models `strings.TrimSuffix(s, filepath.Ext(s))`: since
`filepath.Ext s` is always a suffix of `s`, this drops it. -/
def trimExt (s : String) : String :=
  s.dropRight (goExt s).length

/-- effPid is the guard `task.PictureID != nil && *task.PictureID != ""`
used twice in `processConversionTask`. -/
def effPid : Option String → Option String
  | some p => if p = "" then none else some p
  | none => none

/-- Fs is the filesystem as the worker touches it: bytes stored at paths. -/
abbrev Fs : Type := List (String × List Nat)

/-- lookupFs models `os.ReadFile` / `os.Stat` success at a path. -/
def lookupFs (fs : Fs) (p : String) : Option (List Nat) :=
  (fs.find? (fun e => e.1 = p)).map (fun e => e.2)

/-- writeFs models `os.WriteFile`: overwrite or create. -/
def writeFs (fs : Fs) (p : String) (data : List Nat) : Fs :=
  if fs.any (fun e => e.1 = p) then
    fs.map (fun e => if e.1 = p then (p, data) else e)
  else
    fs ++ [(p, data)]

/-- removeFs models `os.Remove` with the worker's ignore-not-found
handling. -/
def removeFs (fs : Fs) (p : String) : Fs :=
  fs.filter (fun e => ¬ e.1 = p)

/-- WorkerWorld is the state the conversion worker reads and writes: the
filesystem, the two tables, and the payloads pushed to the hub. -/
structure WorkerWorld where
  fs : Fs
  pics : List Picture
  tasks : List ConversionTask
  broadcasts : List (List Picture)
deriving DecidableEq

/-- processConversionTask models the Go function of the same name.  The
`time.Now().UnixNano()` calls for the fresh id base and the collision
suffix arrive as `now1`, `now2`; the `time.Now()` stamped on a new picture
arrives as its rendering `nowUp`.  Directory creation and the final file
writes cannot fail in the model (the claims do not involve those I/O
failures). -/
def processConversionTask (decode : List Nat → Option Image)
    (encode : Image → Nat → Option (List Nat)) (now1 now2 : Nat) (nowUp : String)
    (w : WorkerWorld) (task : ConversionTask) : Except String WorkerWorld :=
  match lookupFs w.fs task.originalPath with
  | none => .error ("read original: open " ++ task.originalPath ++ ": no such file or directory")
  | some data =>
    match convertToWebP decode encode data with
    | .error e => .error ("convert to webp: " ++ e)
    | .ok processed =>
      let base0 : String :=
        match effPid task.pictureID with
        | some pid =>
          let t := trimExt pid
          if t = "" then toString now1 else t
        | none => toString now1
      let first : String × String :=
        (base0 ++ ".webp", "uploads/" ++ (base0 ++ ".webp"))
      let chosen : String × String :=
        if (lookupFs w.fs first.2).isSome then
          let b := base0 ++ "_" ++ toString now2
          (b ++ ".webp", "uploads/" ++ (b ++ ".webp"))
        else first
      let newID := chosen.1
      let newPath := chosen.2
      let fs1 := writeFs w.fs newPath processed
      match effPid task.pictureID with
      | some pid =>
        match updatePictureFile w.pics pid newID ("/uploads/" ++ newID) with
        | .error e => .error ("update picture record: " ++ e)
        | .ok pics1 =>
          let oldPath := "uploads/" ++ pid
          let fs2 := if oldPath = newPath then fs1 else removeFs fs1 oldPath
          .ok { fs := removeFs fs2 task.originalPath, pics := pics1,
                tasks := w.tasks, broadcasts := w.broadcasts ++ [rankedList pics1] }
      | none =>
        let pic : Picture :=
          { id := newID, filename := task.originalName,
            url := "/uploads/" ++ newID, likes := 0, uploadedAt := nowUp }
        match addPicture w.pics pic with
        | .error e => .error ("insert picture: " ++ e)
        | .ok pics1 =>
          .ok { fs := removeFs fs1 task.originalPath, pics := pics1,
                tasks := w.tasks, broadcasts := w.broadcasts ++ [rankedList pics1] }

/-- workerCycle models one iteration of `startConversionWorker` that found
work: claim, process, then mark the claimed task completed or failed.  When
nothing is claimed the iteration only sleeps. -/
def workerCycle (decode : List Nat → Option Image)
    (encode : Image → Nat → Option (List Nat))
    (nowClaim now1 now2 : Nat) (nowUp : String) (nowMark : Nat)
    (w : WorkerWorld) : WorkerWorld :=
  match claimNextTask nowClaim w.tasks with
  | (none, _) => w
  | (some task, tasks1) =>
    match processConversionTask decode encode now1 now2 nowUp { w with tasks := tasks1 } task with
    | .error msg => { w with tasks := markTaskFailed task.id msg nowMark tasks1 }
    | .ok w2 => { w2 with tasks := markTaskCompleted task.id nowMark w2.tasks }

/-! ### Broadcast hub (`Hub.run`) -/

/-- BroadcastOut is the outcome of one `broadcast` message in `Hub.run`:
who stays registered, who received the payload, who was pruned and
closed.  In the Go loop a connection receives the payload exactly when its
`WriteMessage` returns nil, and exactly those connections stay in
`clients`. -/
structure BroadcastOut where
  remaining : List Nat
  delivered : List Nat
  closed : List Nat
deriving DecidableEq, Repr

/-- broadcastStep models the `case message := <-h.broadcast` arm of
`Hub.run`, with `sendOk c` standing for `conn.WriteMessage` succeeding on
connection `c`. -/
def broadcastStep (sendOk : Nat → Bool) (clients : List Nat) : BroadcastOut :=
  { remaining := clients.filter sendOk,
    delivered := clients.filter sendOk,
    closed := clients.filter (fun c => ¬ sendOk c = true) }

/-- broadcastRun folds a sequence of broadcasts over the active set,
collecting each round's delivery list. -/
def broadcastRun : List (Nat → Bool) → List Nat → List Nat × List (List Nat)
  | [], clients => (clients, [])
  | f :: rest, clients =>
    let out := broadcastStep f clients
    let tail := broadcastRun rest out.remaining
    (tail.1, out.delivered :: tail.2)

/-! ### Helper lemmas -/

lemma broadcastRun_not_delivered :
    ∀ (fs : List (Nat → Bool)) (clients : List Nat) (c : Nat),
      c ∉ clients → ∀ d ∈ (broadcastRun fs clients).2, c ∉ d
  | [], clients, c => by
    intro _ d hd
    simp [broadcastRun] at hd
  | f :: rest, clients, c => by
    intro hc d hd
    simp only [broadcastRun, List.mem_cons] at hd
    rcases hd with hd | hd
    · subst hd
      intro hmem
      exact hc (List.mem_filter.mp hmem).1
    · refine broadcastRun_not_delivered rest _ c ?_ d hd
      intro hmem
      exact hc (List.mem_filter.mp hmem).1

lemma find?_map_likes (id : String) :
    ∀ (pics : List Picture) (p : Picture),
      pics.find? (fun q => q.id = id) = some p →
      (pics.map (fun q => if q.id = id then { q with likes := q.likes + 1 } else q)).find?
          (fun q => q.id = id) = some { p with likes := p.likes + 1 }
  | [], p => by intro h; simp at h
  | q :: rest, p => by
    intro h
    by_cases hq : q.id = id
    · rw [List.find?_cons_of_pos _ (by simpa using hq)] at h
      have hqp : q = p := by simpa using h
      subst hqp
      rw [List.map_cons, if_pos hq, List.find?_cons_of_pos _ (by simpa using hq)]
    · rw [List.find?_cons_of_neg _ (by simpa using hq)] at h
      rw [List.map_cons, if_neg hq, List.find?_cons_of_neg _ (by simpa using hq)]
      exact find?_map_likes id rest p h

lemma any_of_find? (pics : List Picture) (id : String) (p : Picture)
    (h : pics.find? (fun q => q.id = id) = some p) :
    pics.any (fun q => q.id = id) = true := by
  have hp : p ∈ pics := List.mem_of_find?_eq_some h
  have hid := List.find?_some h
  exact List.any_eq_true.mpr ⟨p, hp, hid⟩

lemma incLikesN_find? (id : String) :
    ∀ (n : Nat) (pics : List Picture) (p : Picture),
      pics.find? (fun q => q.id = id) = some p →
      (incLikesN id n pics).find? (fun q => q.id = id)
        = some { p with likes := p.likes + (n : Int) }
  | 0, pics, p => by
    intro h
    show pics.find? (fun q => q.id = id) = _
    rw [h]
    norm_num
  | n + 1, pics, p => by
    intro h
    have hstep : incLikesStep id pics
        = pics.map (fun q => if q.id = id then { q with likes := q.likes + 1 } else q) := by
      unfold incLikesStep incrementLikes
      rw [if_pos (any_of_find? pics id p h)]
    have h2 := find?_map_likes id pics p h
    rw [← hstep] at h2
    have h3 := incLikesN_find? id n (incLikesStep id pics) _ h2
    show (incLikesN id n (incLikesStep id pics)).find? (fun q => q.id = id) = _
    rw [h3]
    show some (Picture.mk p.id p.filename p.url (p.likes + 1 + (n : Int)) p.uploadedAt) = _
    have : p.likes + 1 + (n : Int) = p.likes + ((n : Int) + 1) := by ring
    rw [this]
    push_cast
    rfl

lemma createConversionTask_of_any {db : TaskDB} {path : String} (name pid : String) (now : Nat)
    (h : db.tasks.any (fun t => t.originalPath = path) = true) :
    createConversionTask path name pid now db = db := by
  unfold createConversionTask
  rw [if_pos h]

lemma createConversionTask_of_not_any {db : TaskDB} {path : String} (name pid : String) (now : Nat)
    (h : ¬ db.tasks.any (fun t => t.originalPath = path) = true) :
    createConversionTask path name pid now db =
      { tasks := db.tasks ++
          [{ id := db.nextId, originalPath := path, originalName := name,
             pictureID := if pid = "" then none else some pid,
             status := "pending", errorMsg := none,
             createdAt := now, updatedAt := now }],
        nextId := db.nextId + 1 } := by
  unfold createConversionTask
  rw [if_neg h]

/-! ### Claim theorems -/

/-- C3: CreateTask called twice with the same sourcePath leaves exactly one
stored task; if a task for that sourcePath already exists in any status,
the call is a no-op, not an error, so repeated reconciliation is
idempotent. -/
theorem createConversionTask_idempotent :
    ∀ (db : TaskDB) (path n1 n2 pid1 pid2 : String) (c1 c2 : Nat),
      createConversionTask path n2 pid2 c2 (createConversionTask path n1 pid1 c1 db)
          = createConversionTask path n1 pid1 c1 db ∧
      ((∃ t ∈ db.tasks, t.originalPath = path) →
          createConversionTask path n1 pid1 c1 db = db) ∧
      ((db.tasks.filter (fun t => t.originalPath = path)).length = 0 →
        ((createConversionTask path n2 pid2 c2 (createConversionTask path n1 pid1 c1 db)).tasks.filter
            (fun t => t.originalPath = path)).length = 1) := by
  intro db path n1 n2 pid1 pid2 c1 c2
  by_cases h : db.tasks.any (fun t => t.originalPath = path) = true
  · have h1 : createConversionTask path n1 pid1 c1 db = db :=
      createConversionTask_of_any n1 pid1 c1 h
    have h2 : createConversionTask path n2 pid2 c2 db = db :=
      createConversionTask_of_any n2 pid2 c2 h
    refine ⟨by rw [h1, h2], fun _ => h1, ?_⟩
    intro h0
    exfalso
    obtain ⟨t, ht, hpath⟩ := List.any_eq_true.mp h
    have hmem : t ∈ db.tasks.filter (fun t => t.originalPath = path) :=
      List.mem_filter.mpr ⟨ht, hpath⟩
    rw [List.length_eq_zero] at h0
    rw [h0] at hmem
    exact List.not_mem_nil t hmem
  · have h1 := createConversionTask_of_not_any n1 pid1 c1 h
    have hany2 : ((createConversionTask path n1 pid1 c1 db).tasks.any
        (fun t => t.originalPath = path)) = true := by
      rw [h1]
      simp
    have h2 : createConversionTask path n2 pid2 c2 (createConversionTask path n1 pid1 c1 db)
        = createConversionTask path n1 pid1 c1 db :=
      createConversionTask_of_any n2 pid2 c2 hany2
    refine ⟨h2, ?_, ?_⟩
    · intro ⟨t, ht, hpath⟩
      exfalso
      exact h (List.any_eq_true.mpr ⟨t, ht, by simpa using hpath⟩)
    · intro h0
      rw [h2, h1]
      simp only [List.filter_append, List.length_append]
      rw [List.length_eq_zero] at h0
      rw [h0]
      simp

/-- C6: IncrementLikeCount on a present id succeeds and bumps exactly that
row's likeCount by exactly 1 (so n requests raise it by n, with no lost
updates); on an absent id it reports not-found and changes nothing. -/
theorem incrementLikes_spec :
    ∀ (pics : List Picture) (id : String),
      ((∃ p ∈ pics, p.id = id) →
          incrementLikes id pics =
            .ok (pics.map (fun p => if p.id = id then { p with likes := p.likes + 1 } else p))) ∧
      ((∀ p ∈ pics, ¬ p.id = id) →
          incrementLikes id pics = .error "picture not found" ∧ incLikesStep id pics = pics) ∧
      (∀ (p : Picture) (n : Nat),
          pics.find? (fun q => q.id = id) = some p →
          (incLikesN id n pics).find? (fun q => q.id = id)
            = some { p with likes := p.likes + (n : Int) }) := by
  intro pics id
  refine ⟨?_, ?_, fun p n h => incLikesN_find? id n pics p h⟩
  · intro ⟨p, hp, hid⟩
    unfold incrementLikes
    rw [if_pos (List.any_eq_true.mpr ⟨p, hp, by simpa using hid⟩)]
  · intro hall
    have hany : pics.any (fun p => p.id = id) = false := by
      rw [List.any_eq_false]
      intro p hp
      simpa using hall p hp
    constructor
    · unfold incrementLikes
      rw [if_neg (by rw [hany]; simp)]
    · unfold incLikesStep incrementLikes
      rw [if_neg (by rw [hany]; simp)]

/-- C7: during Broadcast the hub attempts delivery to every active
connection: each one either receives the payload and stays, or its send
fails and it is removed and closed, after which no later broadcast delivers
to it. -/
theorem broadcast_prunes_failed :
    ∀ (sendOk : Nat → Bool) (clients : List Nat) (c : Nat),
      c ∈ clients →
      (sendOk c = true →
          c ∈ (broadcastStep sendOk clients).remaining ∧
          c ∈ (broadcastStep sendOk clients).delivered) ∧
      (sendOk c = false →
          c ∉ (broadcastStep sendOk clients).remaining ∧
          c ∈ (broadcastStep sendOk clients).closed ∧
          (∀ fs, ∀ d ∈ (broadcastRun fs (broadcastStep sendOk clients).remaining).2, c ∉ d)) ∧
      (c ∈ (broadcastStep sendOk clients).delivered ∨ c ∈ (broadcastStep sendOk clients).closed) := by
  intro sendOk clients c hc
  refine ⟨?_, ?_, ?_⟩
  · intro hok
    exact ⟨List.mem_filter.mpr ⟨hc, hok⟩, List.mem_filter.mpr ⟨hc, hok⟩⟩
  · intro hfail
    have hnot : c ∉ (broadcastStep sendOk clients).remaining := by
      intro hmem
      have := (List.mem_filter.mp hmem).2
      rw [hfail] at this
      exact Bool.false_ne_true this
    refine ⟨hnot, List.mem_filter.mpr ⟨hc, by simp [hfail]⟩, ?_⟩
    intro fs d hd
    exact broadcastRun_not_delivered fs _ c hnot d hd
  · cases hok : sendOk c with
    | true => exact Or.inl (List.mem_filter.mpr ⟨hc, hok⟩)
    | false => exact Or.inr (List.mem_filter.mpr ⟨hc, by simp [hok]⟩)

/-- C9: a decoded image is downscaled exactly when a dimension exceeds the
fixed maximum 1600, in which case the longer side becomes 1600 and the
other side is its proportional value up to the half-up rounding of
`imaging.Fit`; in-bound images are untouched, and the result is encoded at
the fixed quality 82. -/
theorem convertToWebP_resize_spec :
    ∀ (img : Image),
      (img.width ≤ maxImageDimension ∧ img.height ≤ maxImageDimension →
          convertedImage img = img) ∧
      (maxImageDimension < img.width ∨ maxImageDimension < img.height →
          max (convertedImage img).width (convertedImage img).height = maxImageDimension ∧
          convertedImage img ≠ img ∧
          (img.height < img.width →
              (convertedImage img).width = maxImageDimension ∧
              2 * img.width * (convertedImage img).height
                  ≤ 2 * maxImageDimension * img.height + img.width ∧
              2 * maxImageDimension * img.height
                  ≤ 2 * img.width * (convertedImage img).height + img.width) ∧
          (img.width ≤ img.height →
              (convertedImage img).height = maxImageDimension ∧
              2 * img.height * (convertedImage img).width
                  ≤ 2 * maxImageDimension * img.width + img.height ∧
              2 * maxImageDimension * img.width
                  ≤ 2 * img.height * (convertedImage img).width + img.height)) ∧
      (∀ (decode : List Nat → Option Image) (encode : Image → Nat → Option (List Nat))
          (data out : List Nat),
          convertToWebP decode encode data = .ok out →
          ∃ img0, decode data = some img0 ∧ encode (convertedImage img0) webpQuality = some out) ∧
      webpQuality = 82 := by
  intro img
  refine ⟨?_, ?_, ?_, rfl⟩
  · intro hin
    unfold convertedImage
    rw [if_neg]
    push_neg
    omega
  · intro hex
    obtain ⟨w, h⟩ := img
    simp only [maxImageDimension] at hex ⊢
    by_cases hcmp : h < w
    · have hw0 : 0 < w := by omega
      have hfit : convertedImage ⟨w, h⟩ = ⟨1600, (2 * 1600 * h + w) / (2 * w)⟩ := by
        unfold convertedImage imagingFit
        simp only [maxImageDimension]
        rw [if_pos hex, if_neg (by omega), if_pos (by omega)]
      rw [hfit]
      have hdm := Nat.div_add_mod (2 * 1600 * h + w) (2 * w)
      have hmod : (2 * 1600 * h + w) % (2 * w) < 2 * w := Nat.mod_lt _ (by omega)
      have hle : (2 * 1600 * h + w) / (2 * w) ≤ 1600 := by
        by_contra hgt
        push_neg at hgt
        have h1 : 2 * w * 1601 ≤ 2 * w * ((2 * 1600 * h + w) / (2 * w)) :=
          Nat.mul_le_mul_left _ hgt
        have h2 : 2 * 1600 * h + w ≤ 3201 * w - 3200 := by omega
        omega
      refine ⟨by simpa using hle, ?_, ?_, by omega⟩
      · intro heq
        have := congrArg Image.width heq
        simp at this
        omega
      · intro _
        refine ⟨rfl, ?_, ?_⟩ <;> simp only [] <;> omega
    · have hh0 : 0 < h := by omega
      have hfit : convertedImage ⟨w, h⟩ = ⟨(2 * 1600 * w + h) / (2 * h), 1600⟩ := by
        unfold convertedImage imagingFit
        simp only [maxImageDimension]
        rw [if_pos hex, if_neg (by omega), if_neg (by omega)]
      rw [hfit]
      have hdm := Nat.div_add_mod (2 * 1600 * w + h) (2 * h)
      have hmod : (2 * 1600 * w + h) % (2 * h) < 2 * h := Nat.mod_lt _ (by omega)
      have hle : (2 * 1600 * w + h) / (2 * h) ≤ 1600 := by
        by_contra hgt
        push_neg at hgt
        have h1 : 2 * h * 1601 ≤ 2 * h * ((2 * 1600 * w + h) / (2 * h)) :=
          Nat.mul_le_mul_left _ hgt
        have h2 : 2 * 1600 * w + h ≤ 3201 * h := by omega
        omega
      refine ⟨by simpa using hle, ?_, by omega, ?_⟩
      · intro heq
        have := congrArg Image.height heq
        simp at this
        omega
      · intro _
        refine ⟨rfl, ?_, ?_⟩ <;> simp only [] <;> omega
  · intro decode encode data out hok
    unfold convertToWebP at hok
    cases hdec : decode data with
    | none => rw [hdec] at hok; exact absurd hok (by simp)
    | some img0 =>
      rw [hdec] at hok
      cases henc : encode (convertedImage img0) webpQuality with
      | none => simp [henc] at hok
      | some o =>
        refine ⟨img0, rfl, ?_⟩
        rw [henc]
        simp [henc] at hok
        rw [hok]

lemma filterMap_rowToPicture (l : List Picture) :
    l.filterMap rowToPicture = l.filter (fun p => isRFC3339 p.uploadedAt) := by
  induction l with
  | nil => rfl
  | cons p rest ih =>
    by_cases hp : isRFC3339 p.uploadedAt = true
    · have h1 : rowToPicture p = some p := by
        unfold rowToPicture
        rw [if_pos hp]
      simp [List.filterMap_cons, h1, List.filter_cons, hp, ih]
    · have h1 : rowToPicture p = none := by
        unfold rowToPicture
        rw [if_neg hp]
      simp [List.filterMap_cons, h1, List.filter_cons, hp, ih]

lemma rowToPicture_eq_some {a b : Picture} (h : rowToPicture a = some b) :
    a = b ∧ isRFC3339 b.uploadedAt = true := by
  unfold rowToPicture at h
  by_cases ha : isRFC3339 a.uploadedAt = true
  · rw [if_pos ha] at h
    obtain rfl : a = b := by simpa using h
    exact ⟨rfl, ha⟩
  · rw [if_neg ha] at h
    exact absurd h (by simp)

/-- C4: for every store state reachable by any sequence of insertions and
likes (indeed for every table), GetRankedItems returns the items sorted by
likeCount descending with ties broken by createdAt descending. -/
theorem getAllPicturesSortedByLikes_sorted :
    (∀ (pics : List Picture), ∃ l, getAllPicturesSortedByLikes pics = .ok l ∧
        List.Sorted rankedLE l) ∧
    (∀ (ops : List StoreOp), ∃ l, getAllPicturesSortedByLikes (runStoreOps ops) = .ok l ∧
        List.Sorted rankedLE l) := by
  have hall : ∀ (pics : List Picture), ∃ l, getAllPicturesSortedByLikes pics = .ok l ∧
      List.Sorted rankedLE l := by
    intro pics
    refine ⟨_, rfl, ?_⟩
    rw [filterMap_rowToPicture]
    exact (List.sorted_insertionSort rankedLE pics).filter _
  exact ⟨hall, fun ops => hall (runStoreOps ops)⟩

/-- C10: both listing queries silently omit any stored row whose persisted
uploaded_at fails to parse as RFC3339: the row is skipped, all parseable
rows are still returned (all of them for the ranked listing), and the call
still reports no error. -/
theorem listings_skip_unparsable_rows :
    ∀ (pics : List Picture) (r : Picture) (n : Nat),
      r ∈ pics → isRFC3339 r.uploadedAt = false →
      (∃ l, getAllPicturesSortedByLikes pics = .ok l ∧ r ∉ l ∧
          (∀ p ∈ l, isRFC3339 p.uploadedAt = true) ∧
          (∀ q ∈ pics, isRFC3339 q.uploadedAt = true → q ∈ l)) ∧
      (∃ l2, getLastPictures n pics = .ok l2 ∧ r ∉ l2 ∧
          (∀ p ∈ l2, isRFC3339 p.uploadedAt = true)) := by
  intro pics r n hr hbad
  constructor
  · refine ⟨_, rfl, ?_, ?_, ?_⟩
    · intro hmem
      obtain ⟨a, _, ha⟩ := List.mem_filterMap.mp hmem
      obtain ⟨rfl, hgood⟩ := rowToPicture_eq_some ha
      rw [hbad] at hgood
      exact Bool.false_ne_true hgood
    · intro p hp
      obtain ⟨a, _, ha⟩ := List.mem_filterMap.mp hp
      exact (rowToPicture_eq_some ha).2
    · intro q hq hgood
      refine List.mem_filterMap.mpr ⟨q, ?_, ?_⟩
      · exact (List.mem_insertionSort rankedLE).mpr hq
      · unfold rowToPicture
        rw [if_pos hgood]
  · refine ⟨_, rfl, ?_, ?_⟩
    · intro hmem
      obtain ⟨a, _, ha⟩ := List.mem_filterMap.mp hmem
      obtain ⟨rfl, hgood⟩ := rowToPicture_eq_some ha
      rw [hbad] at hgood
      exact Bool.false_ne_true hgood
    · intro p hp
      obtain ⟨a, _, ha⟩ := List.mem_filterMap.mp hp
      exact (rowToPicture_eq_some ha).2

lemma selectNextPending_none :
    ∀ (ts : List ConversionTask),
      selectNextPending ts = none ↔ ∀ t ∈ ts, ¬ t.status = "pending"
  | [] => by simp [selectNextPending]
  | u :: rest => by
    unfold selectNextPending
    by_cases hu : u.status = "pending"
    · rw [if_pos hu]
      constructor
      · intro h
        exfalso
        cases hsel : selectNextPending rest with
        | none => rw [hsel] at h; simp [selectBetter] at h
        | some b =>
          rw [hsel] at h
          replace h : (if b.createdAt < u.createdAt then some b else some u) = none := h
          split at h <;> simp at h
      · intro h
        exact absurd hu (h u (List.mem_cons_self u rest))
    · rw [if_neg hu, selectNextPending_none rest]
      constructor
      · intro h t ht
        rcases List.mem_cons.mp ht with rfl | ht
        · exact hu
        · exact h t ht
      · intro h t ht
        exact h t (List.mem_cons_of_mem u ht)

lemma selectNextPending_some :
    ∀ (ts : List ConversionTask) (t : ConversionTask),
      selectNextPending ts = some t →
      t ∈ ts ∧ t.status = "pending" ∧
        ∀ u ∈ ts, u.status = "pending" → t.createdAt ≤ u.createdAt
  | [], t => by simp [selectNextPending]
  | u :: rest, t => by
    unfold selectNextPending
    by_cases hu : u.status = "pending"
    · rw [if_pos hu]
      cases hsel : selectNextPending rest with
      | none =>
        intro h
        replace h : some u = some t := h
        obtain rfl : u = t := by simpa using h
        have hnone := (selectNextPending_none rest).mp hsel
        refine ⟨List.mem_cons_self u rest, hu, ?_⟩
        intro v hv hvp
        rcases List.mem_cons.mp hv with rfl | hv
        · exact le_refl _
        · exact absurd hvp (hnone v hv)
      | some b =>
        have hb := selectNextPending_some rest b hsel
        intro h
        replace h : (if b.createdAt < u.createdAt then some b else some u) = some t := h
        by_cases hlt : b.createdAt < u.createdAt
        · rw [if_pos hlt] at h
          obtain rfl : b = t := by simpa using h
          refine ⟨List.mem_cons_of_mem u hb.1, hb.2.1, ?_⟩
          intro v hv hvp
          rcases List.mem_cons.mp hv with rfl | hv
          · exact le_of_lt hlt
          · exact hb.2.2 v hv hvp
        · rw [if_neg hlt] at h
          obtain rfl : u = t := by simpa using h
          refine ⟨List.mem_cons_self u rest, hu, ?_⟩
          intro v hv hvp
          rcases List.mem_cons.mp hv with rfl | hv
          · exact le_refl _
          · exact le_trans (by omega) (hb.2.2 v hv hvp)
    · rw [if_neg hu]
      intro h
      have ht := selectNextPending_some rest t h
      refine ⟨List.mem_cons_of_mem u ht.1, ht.2.1, ?_⟩
      intro v hv hvp
      rcases List.mem_cons.mp hv with rfl | hv
      · exact absurd hvp hu
      · exact ht.2.2 v hv hvp

lemma claimUpdate_fst (id now : Nat) (tasks : List ConversionTask) :
    (claimUpdate id now tasks).1
      = (tasks.filter (fun t => t.id = id ∧ t.status = "pending")).length := rfl

lemma claimUpdate_snd (id now : Nat) (tasks : List ConversionTask) :
    (claimUpdate id now tasks).2
      = tasks.map (fun t =>
          if t.id = id ∧ t.status = "pending" then
            { t with status := "processing", updatedAt := now }
          else t) := rfl

lemma claimUpdate_fst_ne_zero {tasks : List ConversionTask} {t : ConversionTask}
    (hmem : t ∈ tasks) (hp : t.status = "pending") (now : Nat) :
    ¬ (claimUpdate t.id now tasks).1 = 0 := by
  rw [claimUpdate_fst]
  intro h0
  rw [List.length_eq_zero, List.filter_eq_nil_iff] at h0
  exact h0 t hmem (by simp [hp])

lemma claimFinish_succeeds {tasks : List ConversionTask} {t : ConversionTask}
    (hmem : t ∈ tasks) (hp : t.status = "pending") (now : Nat) :
    claimFinish t now tasks = (some t, (claimUpdate t.id now tasks).2) := by
  unfold claimFinish
  rw [if_neg (claimUpdate_fst_ne_zero hmem hp now)]

lemma claimNextTask_some {now : Nat} {tasks ts1 : List ConversionTask} {t : ConversionTask}
    (h : claimNextTask now tasks = (some t, ts1)) :
    t ∈ tasks ∧ t.status = "pending" ∧
      (∀ u ∈ tasks, u.status = "pending" → t.createdAt ≤ u.createdAt) ∧
      ts1 = tasks.map (fun u =>
        if u.id = t.id ∧ u.status = "pending" then
          { u with status := "processing", updatedAt := now }
        else u) := by
  unfold claimNextTask at h
  cases hsel : selectNextPending tasks with
  | none => simp [hsel] at h
  | some t0 =>
    rw [hsel] at h
    replace h : claimFinish t0 now tasks = (some t, ts1) := h
    have hs := selectNextPending_some tasks t0 hsel
    rw [claimFinish_succeeds hs.1 hs.2.1 now] at h
    have hfst : t0 = t := by simpa using congrArg Prod.fst h
    subst hfst
    have hsnd := congrArg Prod.snd h
    simp only at hsnd
    exact ⟨hs.1, hs.2.1, hs.2.2, by rw [← hsnd, claimUpdate_snd]⟩

lemma claimNextTask_isSome {now : Nat} {tasks : List ConversionTask}
    (h : ∃ t ∈ tasks, t.status = "pending") :
    (claimNextTask now tasks).1.isSome = true := by
  cases hsel : selectNextPending tasks with
  | none =>
    obtain ⟨t, ht, hp⟩ := h
    exact absurd hp ((selectNextPending_none tasks).mp hsel t ht)
  | some t0 =>
    have hs := selectNextPending_some tasks t0 hsel
    unfold claimNextTask
    rw [hsel]
    show (claimFinish t0 now tasks).1.isSome = true
    rw [claimFinish_succeeds hs.1 hs.2.1 now]
    rfl

lemma claimFinish_race {tasks : List ConversionTask} {t : ConversionTask}
    (hnd : (tasks.map (fun u => u.id)).Nodup)
    (hsel : selectNextPending tasks = some t) (now now2 : Nat) :
    (claimFinish t now tasks).1 = some t ∧
    (claimFinish t now2 (claimFinish t now tasks).2).1 = none ∧
    (claimFinish t now2 (claimFinish t now tasks).2).2 = (claimFinish t now tasks).2 := by
  have hs := selectNextPending_some tasks t hsel
  have h1 := claimFinish_succeeds hs.1 hs.2.1 now
  have hempty : ((claimUpdate t.id now tasks).2.filter
      (fun u => u.id = t.id ∧ u.status = "pending")).length = 0 := by
    rw [claimUpdate_snd, List.length_eq_zero, List.filter_eq_nil_iff]
    intro u hu
    obtain ⟨x, hx, rfl⟩ := List.mem_map.mp hu
    by_cases hxc : x.id = t.id ∧ x.status = "pending"
    · have hxt : x = t := List.inj_on_of_nodup_map hnd hx hs.1 hxc.1
      subst hxt
      rw [if_pos hxc]
      simp
    · rw [if_neg hxc]
      simpa using hxc
  have hzero : (claimUpdate t.id now2 (claimUpdate t.id now tasks).2).1 = 0 := by
    rw [claimUpdate_fst]
    exact hempty
  have h2 : claimFinish t now2 (claimUpdate t.id now tasks).2
      = (none, (claimUpdate t.id now tasks).2) := by
    unfold claimFinish
    rw [if_pos hzero]
  have e : (claimFinish t now tasks).2 = (claimUpdate t.id now tasks).2 := by rw [h1]
  refine ⟨by rw [h1], ?_, ?_⟩
  · rw [e, h2]
  · rw [e, h2]

/-- C1: ClaimNextTask selects among pending tasks one with the smallest
createdAt (FIFO), flips exactly the still-pending rows with its id to
processing in the same transaction, returns none (not an error) when
nothing is pending, and when two claimants race for the same selected row
the first conditional update wins while the loser observes none and leaves
the store untouched. -/
theorem claimNextTask_fifo_atomic :
    ∀ (now now2 : Nat) (tasks : List ConversionTask),
      ((∀ t ∈ tasks, ¬ t.status = "pending") → claimNextTask now tasks = (none, tasks)) ∧
      ((∃ t ∈ tasks, t.status = "pending") → (claimNextTask now tasks).1.isSome = true) ∧
      (∀ t ts1, claimNextTask now tasks = (some t, ts1) →
          t ∈ tasks ∧ t.status = "pending" ∧
          (∀ u ∈ tasks, u.status = "pending" → t.createdAt ≤ u.createdAt) ∧
          ts1 = tasks.map (fun u =>
            if u.id = t.id ∧ u.status = "pending" then
              { u with status := "processing", updatedAt := now }
            else u)) ∧
      ((tasks.map (fun u => u.id)).Nodup →
          ∀ t, selectNextPending tasks = some t →
            (claimFinish t now tasks).1 = some t ∧
            (claimFinish t now2 (claimFinish t now tasks).2).1 = none ∧
            (claimFinish t now2 (claimFinish t now tasks).2).2 = (claimFinish t now tasks).2) := by
  intro now now2 tasks
  refine ⟨?_, fun h => claimNextTask_isSome h, fun t ts1 h => claimNextTask_some h,
    fun hnd t hsel => claimFinish_race hnd hsel now now2⟩
  intro h
  unfold claimNextTask
  simp only [(selectNextPending_none tasks).mpr h]

lemma claimNextTask_none_snd {now : Nat} {tasks ts : List ConversionTask}
    (h : claimNextTask now tasks = (none, ts)) : ts = tasks := by
  unfold claimNextTask at h
  cases hsel : selectNextPending tasks with
  | none =>
    rw [hsel] at h
    replace h : ((none : Option ConversionTask), tasks) = (none, ts) := h
    exact (by simpa using (congrArg Prod.snd h) : tasks = ts).symm
  | some t0 =>
    rw [hsel] at h
    replace h : (if (claimUpdate t0.id now tasks).1 = 0 then
          ((none : Option ConversionTask), tasks)
        else (some t0, (claimUpdate t0.id now tasks).2)) = (none, ts) := h
    split at h
    · exact (by simpa using (congrArg Prod.snd h) : tasks = ts).symm
    · exact absurd (congrArg Prod.fst h) (by simp)

lemma statusRank_le_two (s : String) : statusRank s ≤ 2 := by
  unfold statusRank
  split
  · omega
  · split <;> omega

/-- failedTaskRow is a concrete `conversion_tasks` row already in the
terminal status `failed`. -/
def failedTaskRow : ConversionTask :=
  { id := 1, originalPath := "uploads/original/x.jpg", originalName := "x.jpg",
    pictureID := none, status := "failed", errorMsg := some "boom",
    createdAt := 0, updatedAt := 0 }

/-- C5 counterexample: MarkCompleted is an unconditional UPDATE, so applied
to a task already in the terminal status `failed` it rewrites it to
`completed` — a transition outside the order
`pending → processing → {completed | failed}` the claim asserts. -/
theorem markTaskCompleted_escapes_terminal :
    (markTaskCompleted 1 5 [failedTaskRow]).map (fun t => t.status) = ["completed"] ∧
    failedTaskRow.status = "failed" ∧
    ¬ claimStatusOrder "failed" "completed" := by
  decide

/-- C5 (amended): under every sequence of queue operations no task's status
rank (pending < processing < terminal) ever decreases — in particular no
existing task ever returns to `pending`, every row that is pending after an
operation was already pending or is freshly inserted — only a `pending`
task is ever claimed, and a claimed task cannot be claimed a second time;
however MarkCompleted/MarkFailed are unconditional and can move a task
between the two terminal statuses or straight out of `pending`. -/
theorem queueOps_status_monotone :
    ∀ (now now2 : Nat) (db : TaskDB) (op : QueueOp),
      (∀ t' ∈ (applyQueueOp now db op).tasks,
          (∃ t ∈ db.tasks, t'.id = t.id ∧ statusRank t.status ≤ statusRank t'.status ∧
              (t'.status = "pending" → t.status = "pending")) ∨
          (t'.status = "pending" ∧ ∀ t ∈ db.tasks, ¬ t.originalPath = t'.originalPath)) ∧
      (∀ t ts1, claimNextTask now db.tasks = (some t, ts1) →
          t ∈ db.tasks ∧ t.status = "pending") ∧
      ((db.tasks.map (fun u => u.id)).Nodup →
          ∀ t, selectNextPending db.tasks = some t →
            (claimFinish t now2 (claimFinish t now db.tasks).2).1 = none) := by
  intro now now2 db op
  refine ⟨?_, ?_, ?_⟩
  · intro t' ht'
    cases op with
    | create path name pid =>
      by_cases h : db.tasks.any (fun t => t.originalPath = path) = true
      · rw [show applyQueueOp now db (.create path name pid)
            = createConversionTask path name pid now db from rfl,
          createConversionTask_of_any name pid now h] at ht'
        exact Or.inl ⟨t', ht', rfl, le_refl _, fun hp => hp⟩
      · rw [show applyQueueOp now db (.create path name pid)
            = createConversionTask path name pid now db from rfl,
          createConversionTask_of_not_any name pid now h] at ht'
        simp only [List.mem_append, List.mem_singleton] at ht'
        rcases ht' with ht' | rfl
        · exact Or.inl ⟨t', ht', rfl, le_refl _, fun hp => hp⟩
        · refine Or.inr ⟨rfl, ?_⟩
          intro t ht hpath
          exact h (List.any_eq_true.mpr ⟨t, ht, by simpa using hpath⟩)
    | claim =>
      replace ht' : t' ∈ (claimNextTask now db.tasks).2 := ht'
      rcases hE : claimNextTask now db.tasks with ⟨o, ts⟩
      rw [hE] at ht'
      cases o with
      | none =>
        rw [claimNextTask_none_snd hE] at ht'
        exact Or.inl ⟨t', ht', rfl, le_refl _, fun hp => hp⟩
      | some t0 =>
        have hs := claimNextTask_some hE
        rw [hs.2.2.2] at ht'
        simp only [List.mem_map] at ht'
        obtain ⟨x, hx, rfl⟩ := ht'
        by_cases hxc : x.id = t0.id ∧ x.status = "pending"
        · rw [if_pos hxc]
          refine Or.inl ⟨x, hx, rfl, ?_, ?_⟩
          · rw [hxc.2]
            show statusRank "pending" ≤ statusRank "processing"
            decide
          · intro hp
            exact absurd (show ("processing" : String) = "pending" from hp) (by decide)
        · rw [if_neg hxc]
          exact Or.inl ⟨x, hx, rfl, le_refl _, fun hp => hp⟩
    | complete id =>
      replace ht' : t' ∈ markTaskCompleted id now db.tasks := ht'
      unfold markTaskCompleted at ht'
      simp only [List.mem_map] at ht'
      obtain ⟨x, hx, rfl⟩ := ht'
      by_cases hxc : x.id = id
      · rw [if_pos hxc]
        refine Or.inl ⟨x, hx, rfl, statusRank_le_two _, ?_⟩
        intro hp
        exact absurd hp (by simp)
      · rw [if_neg hxc]
        exact Or.inl ⟨x, hx, rfl, le_refl _, fun hp => hp⟩
    | fail id msg =>
      replace ht' : t' ∈ markTaskFailed id msg now db.tasks := ht'
      unfold markTaskFailed at ht'
      simp only [List.mem_map] at ht'
      obtain ⟨x, hx, rfl⟩ := ht'
      by_cases hxc : x.id = id
      · rw [if_pos hxc]
        refine Or.inl ⟨x, hx, rfl, statusRank_le_two _, ?_⟩
        intro hp
        exact absurd hp (by simp)
      · rw [if_neg hxc]
        exact Or.inl ⟨x, hx, rfl, le_refl _, fun hp => hp⟩
  · intro t ts1 h
    have hs := claimNextTask_some h
    exact ⟨hs.1, hs.2.1⟩
  · intro hnd t hsel
    exact (claimFinish_race hnd hsel now now2).2.1

lemma find?_map_id {f : ConversionTask → ConversionTask} (hf : ∀ t, (f t).id = t.id) :
    ∀ (ts : List ConversionTask) (id : Nat),
      (ts.map f).find? (fun t => t.id = id) = (ts.find? (fun t => t.id = id)).map f
  | [], id => rfl
  | u :: rest, id => by
    rw [List.map_cons]
    by_cases hu : u.id = id
    · rw [List.find?_cons_of_pos _ (by simp [hf u, hu]),
        List.find?_cons_of_pos _ (by simp [hu])]
      rfl
    · rw [List.find?_cons_of_neg _ (by simp [hf u, hu]),
        List.find?_cons_of_neg _ (by simp [hu])]
      exact find?_map_id hf rest id

lemma find?_id_isSome {ts : List ConversionTask} {id : Nat}
    (h : ∃ u ∈ ts, u.id = id) :
    ∃ v, ts.find? (fun t => t.id = id) = some v ∧ v.id = id := by
  obtain ⟨u, hu, hid⟩ := h
  cases hfind : ts.find? (fun t => t.id = id) with
  | none =>
    have := List.find?_eq_none.mp hfind u hu
    exact absurd (by simpa using hid) this
  | some v =>
    exact ⟨v, rfl, by simpa using List.find?_some hfind⟩

lemma statusOf_markTaskFailed {ts : List ConversionTask} {id : Nat}
    (h : ∃ u ∈ ts, u.id = id) (msg : String) (now : Nat) :
    statusOf (markTaskFailed id msg now ts) id = some "failed" ∧
    errOf (markTaskFailed id msg now ts) id = some (some msg) := by
  obtain ⟨v, hv, hvid⟩ := find?_id_isSome h
  have hpres : ∀ t : ConversionTask,
      ((fun t => if t.id = id then { t with status := "failed", errorMsg := some msg, updatedAt := now } else t) t).id = t.id := by
    intro t
    by_cases ht : t.id = id
    · simp [ht]
    · simp [ht]
  unfold statusOf errOf markTaskFailed
  rw [find?_map_id hpres ts id, hv]
  refine ⟨?_, ?_⟩ <;> simp [hvid]

lemma statusOf_markTaskCompleted {ts : List ConversionTask} {id : Nat}
    (h : ∃ u ∈ ts, u.id = id) (now : Nat) :
    statusOf (markTaskCompleted id now ts) id = some "completed" := by
  obtain ⟨v, hv, hvid⟩ := find?_id_isSome h
  have hpres : ∀ t : ConversionTask,
      ((fun t => if t.id = id then { t with status := "completed", errorMsg := none, updatedAt := now } else t) t).id = t.id := by
    intro t
    by_cases ht : t.id = id
    · simp [ht]
    · simp [ht]
  unfold statusOf markTaskCompleted
  rw [find?_map_id hpres ts id, hv]
  simp [hvid]

lemma processConversionTask_tasks
    {decode : List Nat → Option Image} {encode : Image → Nat → Option (List Nat)}
    {now1 now2 : Nat} {nowUp : String} {w w2 : WorkerWorld} {task : ConversionTask}
    (h : processConversionTask decode encode now1 now2 nowUp w task = .ok w2) :
    w2.tasks = w.tasks := by
  unfold processConversionTask at h
  cases hread : lookupFs w.fs task.originalPath with
  | none => simp [hread] at h
  | some data =>
    simp only [hread] at h
    cases hconv : convertToWebP decode encode data with
    | error e => simp [hconv] at h
    | ok processed =>
      simp only [hconv] at h
      cases heff : effPid task.pictureID with
      | some pid =>
        simp only [heff] at h
        split at h
        · exact absurd h (by simp)
        · exact (congrArg WorkerWorld.tasks ((Except.ok.injEq _ _).mp h)).symm
      | none =>
        simp only [heff] at h
        split at h
        · exact absurd h (by simp)
        · exact (congrArg WorkerWorld.tasks ((Except.ok.injEq _ _).mp h)).symm

lemma append_ne_empty_left (a b : String) (h : ¬ a.length = 0) : ¬ (a ++ b) = "" := by
  intro hc
  have hlen := congrArg String.length hc
  rw [String.length_append] at hlen
  have h0 : ("" : String).length = 0 := rfl
  rw [h0] at hlen
  omega

lemma processConversionTask_error_ne_empty
    {decode : List Nat → Option Image} {encode : Image → Nat → Option (List Nat)}
    {now1 now2 : Nat} {nowUp : String} {w : WorkerWorld} {task : ConversionTask} {msg : String}
    (h : processConversionTask decode encode now1 now2 nowUp w task = .error msg) :
    ¬ msg = "" := by
  unfold processConversionTask at h
  cases hread : lookupFs w.fs task.originalPath with
  | none =>
    simp only [hread] at h
    have hmsg := (Except.error.injEq _ _).mp h
    rw [← hmsg]
    apply append_ne_empty_left
    rw [String.length_append]
    have : ("read original: open ").length = 20 := rfl
    omega
  | some data =>
    simp only [hread] at h
    cases hconv : convertToWebP decode encode data with
    | error e =>
      simp only [hconv] at h
      have hmsg := (Except.error.injEq _ _).mp h
      rw [← hmsg]
      apply append_ne_empty_left
      intro h0
      exact absurd h0 (by decide)
    | ok processed =>
      simp only [hconv] at h
      cases heff : effPid task.pictureID with
      | some pid =>
        simp only [heff] at h
        split at h
        · have hmsg := (Except.error.injEq _ _).mp h
          rw [← hmsg]
          apply append_ne_empty_left
          intro h0
          exact absurd h0 (by decide)
        · exact absurd h (by simp)
      | none =>
        simp only [heff] at h
        split at h
        · have hmsg := (Except.error.injEq _ _).mp h
          rw [← hmsg]
          apply append_ne_empty_left
          intro h0
          exact absurd h0 (by decide)
        · exact absurd h (by simp)

/-- C2: once the worker claims a task, the cycle always leaves that task in
a terminal status — `completed` when processing succeeded, `failed` with
the non-empty error text recorded otherwise — never abandoned in
`processing` or back in `pending`; and on a failed new-upload task (no
target picture id) no Item row is inserted. -/
theorem workerCycle_resolves_claimed_task :
    ∀ (decode : List Nat → Option Image) (encode : Image → Nat → Option (List Nat))
      (nowClaim now1 now2 : Nat) (nowUp : String) (nowMark : Nat)
      (w : WorkerWorld) (task : ConversionTask),
      (claimNextTask nowClaim w.tasks).1 = some task →
      (statusOf (workerCycle decode encode nowClaim now1 now2 nowUp nowMark w).tasks task.id
            = some "completed" ∨
        statusOf (workerCycle decode encode nowClaim now1 now2 nowUp nowMark w).tasks task.id
            = some "failed") ∧
      ¬ statusOf (workerCycle decode encode nowClaim now1 now2 nowUp nowMark w).tasks task.id
            = some "processing" ∧
      ¬ statusOf (workerCycle decode encode nowClaim now1 now2 nowUp nowMark w).tasks task.id
            = some "pending" ∧
      (∀ msg, processConversionTask decode encode now1 now2 nowUp
            { w with tasks := (claimNextTask nowClaim w.tasks).2 } task = .error msg →
          statusOf (workerCycle decode encode nowClaim now1 now2 nowUp nowMark w).tasks task.id
              = some "failed" ∧
          errOf (workerCycle decode encode nowClaim now1 now2 nowUp nowMark w).tasks task.id
              = some (some msg) ∧
          ¬ msg = "" ∧
          (effPid task.pictureID = none →
              (workerCycle decode encode nowClaim now1 now2 nowUp nowMark w).pics = w.pics)) := by
  intro decode encode nowClaim now1 now2 nowUp nowMark w task h1
  have hpair : claimNextTask nowClaim w.tasks
      = (some task, (claimNextTask nowClaim w.tasks).2) := by
    rw [← h1]
  have hspec := claimNextTask_some hpair
  have hmem1 : ∃ u ∈ (claimNextTask nowClaim w.tasks).2, u.id = task.id := by
    rw [hspec.2.2.2]
    refine ⟨_, List.mem_map_of_mem _ hspec.1, ?_⟩
    show (if task.id = task.id ∧ task.status = "pending" then
        { task with status := "processing", updatedAt := nowClaim } else task).id = task.id
    rw [if_pos ⟨rfl, hspec.2.1⟩]
  have hcycle : workerCycle decode encode nowClaim now1 now2 nowUp nowMark w =
      (match processConversionTask decode encode now1 now2 nowUp
          { w with tasks := (claimNextTask nowClaim w.tasks).2 } task with
       | .error msg =>
          { w with tasks := markTaskFailed task.id msg nowMark (claimNextTask nowClaim w.tasks).2 }
       | .ok w2 => { w2 with tasks := markTaskCompleted task.id nowMark w2.tasks }) := by
    unfold workerCycle
    rw [hpair]
  cases hproc : processConversionTask decode encode now1 now2 nowUp
      { w with tasks := (claimNextTask nowClaim w.tasks).2 } task with
  | error msg =>
    have hw : workerCycle decode encode nowClaim now1 now2 nowUp nowMark w
        = { w with tasks := markTaskFailed task.id msg nowMark (claimNextTask nowClaim w.tasks).2 } := by
      rw [hcycle]
      simp only [hproc]
    have htasks : (workerCycle decode encode nowClaim now1 now2 nowUp nowMark w).tasks
        = markTaskFailed task.id msg nowMark (claimNextTask nowClaim w.tasks).2 :=
      congrArg WorkerWorld.tasks hw
    have hpics := congrArg WorkerWorld.pics hw
    have hsf := statusOf_markTaskFailed hmem1 msg nowMark
    refine ⟨Or.inr (by rw [htasks]; exact hsf.1), ?_, ?_, ?_⟩
    · rw [htasks, hsf.1]
      decide
    · rw [htasks, hsf.1]
      decide
    · intro msg' hmsg'
      obtain rfl : msg = msg' := (Except.error.injEq _ _).mp hmsg'
      exact ⟨by rw [htasks]; exact hsf.1, by rw [htasks]; exact hsf.2,
        processConversionTask_error_ne_empty hproc, fun _ => hpics⟩
  | ok w2 =>
    have hw : workerCycle decode encode nowClaim now1 now2 nowUp nowMark w
        = { w2 with tasks := markTaskCompleted task.id nowMark w2.tasks } := by
      rw [hcycle]
      simp only [hproc]
    have htasks : (workerCycle decode encode nowClaim now1 now2 nowUp nowMark w).tasks
        = markTaskCompleted task.id nowMark w2.tasks :=
      congrArg WorkerWorld.tasks hw
    have hmem2 : ∃ u ∈ w2.tasks, u.id = task.id := by
      rw [processConversionTask_tasks hproc]
      exact hmem1
    have hsc := statusOf_markTaskCompleted hmem2 nowMark
    refine ⟨Or.inl (by rw [htasks]; exact hsc), ?_, ?_, ?_⟩
    · rw [htasks, hsc]
      decide
    · rw [htasks, hsc]
      decide
    · intro msg hmsg
      exact absurd hmsg (by simp)

lemma updatePictureFile_ok {pics : List Picture} {oldID newID newURL : String}
    {out : List Picture} (h : updatePictureFile pics oldID newID newURL = .ok out) :
    out = pics.map (fun p =>
      if p.id = oldID then { p with id := newID, url := newURL } else p) := by
  unfold updatePictureFile at h
  split at h
  · exact absurd h (by simp)
  · exact ((Except.ok.injEq _ _).mp h).symm

/-- C8: when the worker completes a re-conversion task (target picture id
set), the target Item row gets exactly its id and locator replaced by the
new values — its likeCount, createdAt and displayName survive — and every
other Item row is untouched. -/
theorem reconversion_preserves_fields :
    ∀ (decode : List Nat → Option Image) (encode : Image → Nat → Option (List Nat))
      (now1 now2 : Nat) (nowUp : String) (w : WorkerWorld) (task : ConversionTask)
      (pid : String) (w2 : WorkerWorld),
      effPid task.pictureID = some pid →
      processConversionTask decode encode now1 now2 nowUp w task = .ok w2 →
      ∃ newID,
        w2.pics = w.pics.map (fun p =>
          if p.id = pid then { p with id := newID, url := "/uploads/" ++ newID } else p) ∧
        (∀ p ∈ w.pics, p.id = pid →
            ∃ q ∈ w2.pics, q.id = newID ∧ q.url = "/uploads/" ++ newID ∧
              q.likes = p.likes ∧ q.uploadedAt = p.uploadedAt ∧ q.filename = p.filename) ∧
        (∀ p ∈ w.pics, ¬ p.id = pid → p ∈ w2.pics) := by
  intro decode encode now1 now2 nowUp w task pid w2 heff h
  unfold processConversionTask at h
  cases hread : lookupFs w.fs task.originalPath with
  | none => simp [hread] at h
  | some data =>
    simp only [hread] at h
    cases hconv : convertToWebP decode encode data with
    | error e => simp [hconv] at h
    | ok processed =>
      simp only [hconv, heff] at h
      split at h
      · exact absurd h (by simp)
      · rename_i pics1 hupd
        have hrec := (Except.ok.injEq _ _).mp h
        have hpics1 := updatePictureFile_ok hupd
        obtain ⟨nid, hw2pics⟩ : ∃ nid, w2.pics = w.pics.map (fun p =>
            if p.id = pid then { p with id := nid, url := "/uploads/" ++ nid } else p) :=
          ⟨_, by rw [← hrec]; exact hpics1⟩
        refine ⟨nid, hw2pics, ?_, ?_⟩
        · intro p hp hpid
          refine ⟨if p.id = pid then { p with id := nid, url := "/uploads/" ++ nid } else p,
            ?_, ?_, ?_, ?_, ?_, ?_⟩
          · rw [hw2pics]
            exact List.mem_map_of_mem _ hp
          · simp [hpid]
          · simp [hpid]
          · simp [hpid]
          · simp [hpid]
          · simp [hpid]
        · intro p hp hpid
          rw [hw2pics]
          exact List.mem_map.mpr ⟨p, hp, by simp [hpid]⟩

/-! ### Concrete scenarios used to witness the theorems above -/

instance {ε α : Type} [DecidableEq ε] [DecidableEq α] : DecidableEq (Except ε α) := fun a b =>
  match a, b with
  | .error e, .error f =>
    if h : e = f then .isTrue (by rw [h]) else .isFalse (by intro hc; cases hc; exact h rfl)
  | .ok x, .ok y =>
    if h : x = y then .isTrue (by rw [h]) else .isFalse (by intro hc; cases hc; exact h rfl)
  | .error _, .ok _ => .isFalse (by intro hc; cases hc)
  | .ok _, .error _ => .isFalse (by intro hc; cases hc)

/-- wTask1 is a concrete pending task. -/
def wTask1 : ConversionTask :=
  { id := 1, originalPath := "uploads/original/a.jpg", originalName := "a.jpg",
    pictureID := none, status := "pending", errorMsg := none, createdAt := 5, updatedAt := 5 }

/-- wTask2 is an older concrete pending task. -/
def wTask2 : ConversionTask :=
  { wTask1 with id := 2, originalPath := "uploads/original/b.jpg", createdAt := 3 }

/-- wTask3 is a concrete task already completed. -/
def wTask3 : ConversionTask :=
  { wTask1 with
      id := 3, originalPath := "uploads/original/c.jpg", createdAt := 4,
      status := "completed" }

/-- wTasks is a small concrete task table. -/
def wTasks : List ConversionTask := [wTask1, wTask2, wTask3]

/-- wPic1 is a concrete stored picture row. -/
def wPic1 : Picture :=
  { id := "x.webp", filename := "x", url := "/uploads/x.webp", likes := 2,
    uploadedAt := "2024-01-02T03:04:05Z" }

/-- wPic2 is a second concrete picture row. -/
def wPic2 : Picture :=
  { wPic1 with id := "y.webp", likes := 5, uploadedAt := "2024-01-03T03:04:05Z" }

/-- wPicBad is a row whose stored uploaded_at does not parse. -/
def wPicBad : Picture := { wPic1 with id := "bad.webp", uploadedAt := "oops" }

/-- wDecodeNone is a decoder that rejects every byte sequence. -/
def wDecodeNone : List Nat → Option Image := fun _ => none

/-- wDecodeOk is a decoder producing a small in-bounds image. -/
def wDecodeOk : List Nat → Option Image := fun _ => some { width := 10, height := 10 }

/-- wEncodeSome is an encoder that always succeeds. -/
def wEncodeSome : Image → Nat → Option (List Nat) := fun _ _ => some [1]

/-- wWorld is a worker state holding one pending new-upload task whose input
file exists. -/
def wWorld : WorkerWorld :=
  { fs := [("uploads/original/a.jpg", [7])], pics := [wPic1], tasks := [wTask1],
    broadcasts := [] }

/-- wReTask is a pending re-conversion task targeting picture `old.jpg`. -/
def wReTask : ConversionTask :=
  { wTask1 with originalPath := "uploads/original/raw2.jpg", pictureID := some "old.jpg" }

/-- wReWorld is a worker state holding the re-conversion task and its target
picture. -/
def wReWorld : WorkerWorld :=
  { fs := [("uploads/original/raw2.jpg", [7])], pics := [{ wPic1 with id := "old.jpg" }],
    tasks := [wReTask], broadcasts := [] }

/-- wReOut is the state the worker produces from `wReWorld`. -/
def wReOut : WorkerWorld :=
  { fs := [("uploads/old.webp", [1])],
    pics := [{ wPic1 with id := "old.webp", url := "/uploads/old.webp" }],
    tasks := [wReTask],
    broadcasts := [[{ wPic1 with id := "old.webp", url := "/uploads/old.webp" }]] }

/-- wSendOk is a send outcome where even-numbered connections succeed. -/
def wSendOk : Nat → Bool := fun c => c % 2 = 0

/-- Witness for the C1 theorem at a concrete three-task table: no pending
task yields none; the oldest pending task (id 2) is selected and claimed;
a racing second claim of the same row observes none. -/
theorem claimNextTask_fifo_atomic_witness :
    (∀ t ∈ [wTask3], ¬ t.status = "pending") ∧
    claimNextTask 9 [wTask3] = (none, [wTask3]) ∧
    (∃ t ∈ wTasks, t.status = "pending") ∧
    (claimNextTask 9 wTasks).1.isSome = true ∧
    (wTasks.map (fun u => u.id)).Nodup ∧
    selectNextPending wTasks = some wTask2 ∧
    (claimFinish wTask2 9 wTasks).1 = some wTask2 ∧
    (claimFinish wTask2 10 (claimFinish wTask2 9 wTasks).2).1 = none ∧
    (claimFinish wTask2 10 (claimFinish wTask2 9 wTasks).2).2
      = (claimFinish wTask2 9 wTasks).2 := by
  refine ⟨by decide, (claimNextTask_fifo_atomic 9 10 [wTask3]).1 (by decide), by decide,
    (claimNextTask_fifo_atomic 9 10 wTasks).2.1 (by decide), by decide, by decide,
    (claimNextTask_fifo_atomic 9 10 wTasks).2.2.2 (by decide) wTask2 (by decide)⟩

/-- Witness for the C2 theorem: the worker claims the concrete pending task,
decoding fails, and the cycle records the failure. -/
theorem workerCycle_resolves_claimed_task_witness :
    (claimNextTask 9 wWorld.tasks).1 = some wTask1 ∧
    processConversionTask wDecodeNone wEncodeSome 100 101 "2024-05-05T05:05:05Z"
        { wWorld with tasks := (claimNextTask 9 wWorld.tasks).2 } wTask1
      = .error "convert to webp: image: unknown format" ∧
    (statusOf (workerCycle wDecodeNone wEncodeSome 9 100 101 "2024-05-05T05:05:05Z" 11 wWorld).tasks
        wTask1.id = some "failed" ∧
      errOf (workerCycle wDecodeNone wEncodeSome 9 100 101 "2024-05-05T05:05:05Z" 11 wWorld).tasks
        wTask1.id = some (some "convert to webp: image: unknown format") ∧
      ¬ "convert to webp: image: unknown format" = "" ∧
      (effPid wTask1.pictureID = none →
        (workerCycle wDecodeNone wEncodeSome 9 100 101 "2024-05-05T05:05:05Z" 11 wWorld).pics
          = wWorld.pics)) := by
  refine ⟨by decide, by decide,
    (workerCycle_resolves_claimed_task wDecodeNone wEncodeSome 9 100 101 "2024-05-05T05:05:05Z" 11
      wWorld wTask1 (by decide)).2.2.2 "convert to webp: image: unknown format" (by decide)⟩

/-- Witness for the C3 theorem: a fresh path inserted twice yields exactly
one row; a path already present makes the call a no-op. -/
theorem createConversionTask_idempotent_witness :
    ((TaskDB.mk [wTask3] 4).tasks.filter
        (fun t => t.originalPath = "uploads/original/new.png")).length = 0 ∧
    (((createConversionTask "uploads/original/new.png" "m" "" 8
        (createConversionTask "uploads/original/new.png" "n" "" 7 (TaskDB.mk [wTask3] 4))).tasks.filter
        (fun t => t.originalPath = "uploads/original/new.png")).length = 1) ∧
    (∃ t ∈ (TaskDB.mk [wTask3] 4).tasks, t.originalPath = "uploads/original/c.jpg") ∧
    createConversionTask "uploads/original/c.jpg" "n" "" 7 (TaskDB.mk [wTask3] 4)
      = TaskDB.mk [wTask3] 4 := by
  refine ⟨by decide,
    (createConversionTask_idempotent (TaskDB.mk [wTask3] 4) "uploads/original/new.png"
      "n" "m" "" "" 7 8).2.2 (by decide),
    by decide,
    (createConversionTask_idempotent (TaskDB.mk [wTask3] 4) "uploads/original/c.jpg"
      "n" "m" "" "" 7 8).2.1 (by decide)⟩

/-- Witness for the C5 theorem: on the concrete table with distinct ids the
claimed row cannot be claimed a second time. -/
theorem queueOps_status_monotone_witness :
    ((TaskDB.mk wTasks 4).tasks.map (fun u => u.id)).Nodup ∧
    selectNextPending (TaskDB.mk wTasks 4).tasks = some wTask2 ∧
    (claimFinish wTask2 10 (claimFinish wTask2 9 (TaskDB.mk wTasks 4).tasks).2).1 = none := by
  refine ⟨by decide, by decide,
    (queueOps_status_monotone 9 10 (TaskDB.mk wTasks 4) .claim).2.2 (by decide) wTask2 (by decide)⟩

/-- Witness for the C6 theorem: a present id is bumped by exactly one, three
requests bump it by three. -/
theorem incrementLikes_spec_witness :
    (∃ p ∈ [wPic1, wPic2], p.id = "x.webp") ∧
    incrementLikes "x.webp" [wPic1, wPic2]
      = .ok ([wPic1, wPic2].map (fun p =>
          if p.id = "x.webp" then { p with likes := p.likes + 1 } else p)) ∧
    [wPic1, wPic2].find? (fun q => q.id = "x.webp") = some wPic1 ∧
    (incLikesN "x.webp" 3 [wPic1, wPic2]).find? (fun q => q.id = "x.webp")
      = some { wPic1 with likes := wPic1.likes + (3 : Int) } := by
  refine ⟨by decide, (incrementLikes_spec [wPic1, wPic2] "x.webp").1 (by decide), by decide,
    (incrementLikes_spec [wPic1, wPic2] "x.webp").2.2 wPic1 3 (by decide)⟩

/-- Witness for the C7 theorem: connection 1 fails its send, is pruned and
closed, and no later broadcast reaches it. -/
theorem broadcast_prunes_failed_witness :
    (1 ∈ [1, 2]) ∧ wSendOk 1 = false ∧
    (1 ∉ (broadcastStep wSendOk [1, 2]).remaining ∧
      1 ∈ (broadcastStep wSendOk [1, 2]).closed ∧
      (∀ fs, ∀ d ∈ (broadcastRun fs (broadcastStep wSendOk [1, 2]).remaining).2, 1 ∉ d)) := by
  refine ⟨by decide, by decide,
    (broadcast_prunes_failed wSendOk [1, 2] 1 (by decide)).2.1 (by decide)⟩

/-- Witness for the C8 theorem: the concrete re-conversion run rewrites the
target row's id and locator and preserves its other fields. -/
theorem reconversion_preserves_fields_witness :
    effPid wReTask.pictureID = some "old.jpg" ∧
    processConversionTask wDecodeOk wEncodeSome 100 101 "2024-05-05T05:05:05Z" wReWorld wReTask
      = .ok wReOut ∧
    (∃ newID,
      wReOut.pics = wReWorld.pics.map (fun p =>
        if p.id = "old.jpg" then { p with id := newID, url := "/uploads/" ++ newID } else p) ∧
      (∀ p ∈ wReWorld.pics, p.id = "old.jpg" →
          ∃ q ∈ wReOut.pics, q.id = newID ∧ q.url = "/uploads/" ++ newID ∧
            q.likes = p.likes ∧ q.uploadedAt = p.uploadedAt ∧ q.filename = p.filename) ∧
      (∀ p ∈ wReWorld.pics, ¬ p.id = "old.jpg" → p ∈ wReOut.pics)) := by
  refine ⟨by decide, by decide,
    reconversion_preserves_fields wDecodeOk wEncodeSome 100 101 "2024-05-05T05:05:05Z"
      wReWorld wReTask "old.jpg" wReOut (by decide) (by decide)⟩

/-- Witness for the C9 theorem: an in-bounds image is untouched, an
oversized one has its longer side reduced to the maximum, and a successful
conversion encodes the converted image at quality 82. -/
theorem convertToWebP_resize_spec_witness :
    ((⟨100, 100⟩ : Image).width ≤ maxImageDimension ∧
      (⟨100, 100⟩ : Image).height ≤ maxImageDimension) ∧
    convertedImage ⟨100, 100⟩ = ⟨100, 100⟩ ∧
    (maxImageDimension < (⟨3200, 1600⟩ : Image).width ∨
      maxImageDimension < (⟨3200, 1600⟩ : Image).height) ∧
    max (convertedImage ⟨3200, 1600⟩).width (convertedImage ⟨3200, 1600⟩).height
      = maxImageDimension ∧
    convertToWebP wDecodeOk wEncodeSome [5] = .ok [1] ∧
    (∃ img0, wDecodeOk [5] = some img0 ∧
      wEncodeSome (convertedImage img0) webpQuality = some [1]) := by
  refine ⟨by decide, (convertToWebP_resize_spec ⟨100, 100⟩).1 (by decide), by decide,
    ((convertToWebP_resize_spec ⟨3200, 1600⟩).2.1 (by decide)).1, by decide,
    (convertToWebP_resize_spec ⟨3200, 1600⟩).2.2.1 wDecodeOk wEncodeSome [5] [1] (by decide)⟩

/-- Witness for the C10 theorem: the row with unparsable uploaded_at is
silently dropped from both listings while the parseable row survives. -/
theorem listings_skip_unparsable_rows_witness :
    wPicBad ∈ [wPic1, wPicBad] ∧ isRFC3339 wPicBad.uploadedAt = false ∧
    ((∃ l, getAllPicturesSortedByLikes [wPic1, wPicBad] = .ok l ∧ wPicBad ∉ l ∧
        (∀ p ∈ l, isRFC3339 p.uploadedAt = true) ∧
        (∀ q ∈ [wPic1, wPicBad], isRFC3339 q.uploadedAt = true → q ∈ l)) ∧
      (∃ l2, getLastPictures 1 [wPic1, wPicBad] = .ok l2 ∧ wPicBad ∉ l2 ∧
        (∀ p ∈ l2, isRFC3339 p.uploadedAt = true))) := by
  refine ⟨by decide, by decide,
    listings_skip_unparsable_rows [wPic1, wPicBad] wPicBad 1 (by decide) (by decide)⟩

end Picsapp
